import Mathlib

/-!
Verification of `scripts/docs_openapi_converter.py`.

The converter walks a parsed JSON document (a tree of dicts, lists and
scalars) and rewrites every dict node: rule A filters null-typed entries
out of an `anyOf` list and possibly sets `nullable`, rule B collapses
`examples` into `example`.  The root's `openapi` field is stamped to
`"3.0.2"` first.

Embedding notes.
* A Python dict is modelled as an association list `List (String × Json)`
  with unique keys (the data model of the document tree; JSON parsing
  cannot produce duplicate keys).  `setKey` mirrors Python assignment
  (replace in place, else append), `popKey` mirrors `dict.pop`.
* JSON numbers are modelled as `Int`; no claim involves non-integer
  numbers, and `len()` is undefined on numbers either way.
* Python's `len` raises `TypeError` on numbers, booleans and `None`;
  `pyLen` returns `none` there and the traversal propagates the failure,
  so the embedded converter returns an `Option`.
* The traversal recursion is indexed by a fuel argument so that it is
  structural (and hence evaluable by the kernel); `convert_3_dot_1_to_3_dot_0`
  supplies `jsize` of the document, which strictly dominates the depth
  of every recursive call, so the fuel never runs out on the call from
  `convert_3_dot_1_to_3_dot_0` (`convert_total` below: the converter only
  returns `none` when Python would raise).
* Line 26 of the source reads `len(json_content.get("anyOf", []))`, the
  root dict's current `anyOf` field, at every node visit.  The root's
  `anyOf` value is fixed once the root node itself has been rewritten
  (the root is visited first, and no rewrite of a descendant touches the
  root's `anyOf` entry), so the embedding passes that value down as the
  snapshot `R`.  The snapshot reads the key count of an `Object`-valued
  root `anyOf` before the traversal; Python would re-read it after that
  object's own rewrite.  No claim below depends on an input in that
  corner (the counterexamples that use an `Object`-valued root `anyOf`
  are hand-checked to visit nodes in an order where snapshot and
  re-read lengths agree).
-/

inductive Json where
  | obj : List (String × Json) → Json
  | arr : List Json → Json
  | str : String → Json
  | num : Int → Json
  | bool : Bool → Json
  | null : Json

mutual

/-- Number of constructors in a document tree; it dominates the depth of
every recursive call of the traversal and serves as its fuel. -/
def jsize : Json → Nat
  | Json.obj f => 1 + jsizeF f
  | Json.arr l => 1 + jsizeL l
  | _ => 1

/-- Size of a dict's entry list. -/
def jsizeF : List (String × Json) → Nat
  | [] => 0
  | (_, v) :: rest => 1 + jsize v + jsizeF rest

/-- Size of a list of values. -/
def jsizeL : List Json → Nat
  | [] => 0
  | v :: rest => 1 + jsize v + jsizeL rest

end

/-- Lookup of a key in a dict, mirroring `d[k]` / `d.get(k)`. -/
def getKey : List (String × Json) → String → Option Json
  | [], _ => none
  | (k, v) :: rest, key => if k = key then some v else getKey rest key

/-- Assignment `d[k] = v`: replace the value in place if the key is
present, otherwise append a new entry (Python dicts keep insertion
order). -/
def setKey : List (String × Json) → String → Json → List (String × Json)
  | [], key, val => [(key, val)]
  | (k, v) :: rest, key, val =>
      if k = key then (k, val) :: rest else (k, v) :: setKey rest key val

/-- Removal `d.pop(k)`: drop the entry for the key. -/
def popKey : List (String × Json) → String → List (String × Json)
  | [], _ => []
  | (k, v) :: rest, key =>
      if k = key then popKey rest key else (k, v) :: popKey rest key

/-- The test `isinstance(item, dict) and item.get("type") == "null"` from
line 25 of the source. -/
def isNullType : Json → Bool
  | Json.obj f =>
      match getKey f "type" with
      | some (Json.str s) => s = "null"
      | _ => false
  | _ => false

/-- Python's `len`: defined on strings, lists and dicts, a `TypeError`
(modelled as `none`) on numbers, booleans and `None`. -/
def pyLen : Json → Option Nat
  | Json.str s => some s.length
  | Json.arr l => some l.length
  | Json.obj f => some f.length
  | _ => none

/-- Map a fallible transformation over the values of a dict, keeping the
keys; this is the `for value in yaml_dict.values(): innerConv(value)` loop. -/
def mapValsM (f : Json → Option Json) : List (String × Json) → Option (List (String × Json))
  | [] => some []
  | (k, v) :: rest =>
      match f v, mapValsM f rest with
      | some v', some rest' => some ((k, v') :: rest')
      | _, _ => none

/-- Map a fallible transformation over a list, the
`for item in yaml_dict: innerConv(item)` loop. -/
def mapElemsM (f : Json → Option Json) : List Json → Option (List Json)
  | [] => some []
  | x :: rest =>
      match f x, mapElemsM f rest with
      | some x', some rest' => some (x' :: rest')
      | _, _ => none

/-- Rule A, lines 24-27 of the source: if the node has an `anyOf` field
holding a list, replace it by the list without the null-typed dict
entries, and set `nullable` when the new length is strictly below the
length of `R`, the root document's `anyOf` value (`json_content.get("anyOf", [])`).
Returns `none` when that length computation raises `TypeError`. -/
def ruleA (R : Json) (fields : List (String × Json)) : Option (List (String × Json)) :=
  match getKey fields "anyOf" with
  | some (Json.arr l) =>
      let fl := l.filter (fun it => !isNullType it)
      let g := setKey fields "anyOf" (Json.arr fl)
      match pyLen R with
      | none => none
      | some rlen => some (if fl.length < rlen then setKey g "nullable" (Json.bool true) else g)
  | _ => some fields

/-- Rule B, lines 30-33 of the source: pop `examples`; when the popped
value is a non-empty list, set `example` to its first element. -/
def ruleB (fields : List (String × Json)) : List (String × Json) :=
  match getKey fields "examples" with
  | some ex =>
      let g := popKey fields "examples"
      match ex with
      | Json.arr (e :: _) => setKey g "example" e
      | _ => g
  | none => fields

/-- The recursive traversal `inner`, lines 20-41 of the source: on a dict
apply rule A then rule B, then recurse into the resulting values; on a
list recurse into the items; scalars are untouched.  `R` is the root
document's `anyOf` value read by rule A's comparison; the first argument
is fuel making the recursion structural. -/
def innerConv : Nat → Json → Json → Option Json
  | 0, _, _ => none
  | Nat.succ fuel, R, Json.obj fields =>
      match ruleA R fields with
      | none => none
      | some f1 =>
          match mapValsM (fun v => innerConv fuel R v) (ruleB f1) with
          | none => none
          | some vs => some (Json.obj vs)
  | Nat.succ fuel, R, Json.arr l =>
      match mapElemsM (fun v => innerConv fuel R v) l with
      | none => none
      | some l2 => some (Json.arr l2)
  | Nat.succ _, _, j => some j

/-- The value `json_content.get("anyOf", [])` holds once the root node's
own rule A has run: the root's `anyOf` list already filtered, a non-list
value unchanged, an empty list when the key is absent. -/
def rootAnyOf (fields : List (String × Json)) : Json :=
  match getKey fields "anyOf" with
  | some (Json.arr l) => Json.arr (l.filter (fun it => !isNullType it))
  | some v => v
  | none => Json.arr []

/-- The converter, lines 11-44 of the source: stamp `openapi` to
`"3.0.2"`, then run `inner` on the whole document.  A non-dict root
raises `TypeError` on the `openapi` assignment (`none` here). -/
def convert_3_dot_1_to_3_dot_0 (doc : Json) : Option Json :=
  match doc with
  | Json.obj fields =>
      let f0 := setKey fields "openapi" (Json.str "3.0.2")
      innerConv (jsize (Json.obj f0)) (rootAnyOf f0) (Json.obj f0)
  | _ => none

/-- Invariant of claim C3: every dict node reachable through dict values
and list elements whose `anyOf` field holds a list has no null-typed dict
entry inside that list. -/
inductive Clean : Json → Prop where
  | obj : ∀ fields,
      (∀ l, getKey fields "anyOf" = some (Json.arr l) → ∀ it ∈ l, isNullType it = false) →
      (∀ kv ∈ fields, Clean (Prod.snd kv)) → Clean (Json.obj fields)
  | arr : ∀ l, (∀ j ∈ l, Clean j) → Clean (Json.arr l)
  | str : ∀ s, Clean (Json.str s)
  | num : ∀ n, Clean (Json.num n)
  | bool : ∀ b, Clean (Json.bool b)
  | null : Clean Json.null

/-- Invariant of claim C4: no dict node reachable through dict values and
list elements has a field named `examples`. -/
inductive NoEx : Json → Prop where
  | obj : ∀ fields, getKey fields "examples" = none →
      (∀ kv ∈ fields, NoEx (Prod.snd kv)) → NoEx (Json.obj fields)
  | arr : ∀ l, (∀ j ∈ l, NoEx j) → NoEx (Json.arr l)
  | str : ∀ s, NoEx (Json.str s)
  | num : ∀ n, NoEx (Json.num n)
  | bool : ∀ b, NoEx (Json.bool b)
  | null : NoEx Json.null

/-- Dict entry `{"type": "string"}`. -/
def typeString : Json := Json.obj [("type", Json.str "string")]

/-- Dict entry `{"type": "integer"}`. -/
def typeInteger : Json := Json.obj [("type", Json.str "integer")]

/-- Dict entry `{"type": "null"}`. -/
def typeNull : Json := Json.obj [("type", Json.str "null")]

/-- Input for claim C1: a nested node whose own `anyOf` loses its
null-typed entry, so the claim expects `nullable = true` on it. -/
def c1doc : Json :=
  Json.obj [("openapi", Json.str "3.1.0"),
    ("a", Json.obj [("anyOf", Json.arr [typeString, typeNull])])]

/-- End-to-end input of claim C2. -/
def petDoc : Json :=
  Json.obj [("openapi", Json.str "3.1.0"),
    ("components", Json.obj
      [("schemas", Json.obj
        [("Pet", Json.obj
          [("anyOf", Json.arr [Json.obj [("type", Json.str "object")], typeNull]),
           ("examples", Json.arr [Json.obj [("id", Json.num 1)]])])])])]

/-- Input for claim C5's counterexample: the first element of `examples`
is itself a dict containing an `examples` field, so the traversal rewrites
it after it becomes the `example` value. -/
def c5doc : Json :=
  Json.obj [("a", Json.obj
    [("examples", Json.arr [Json.obj [("examples", Json.arr [Json.num 1])]])])]

/-- Input for claim C6: the root has a two-element `anyOf` without null
entries, and node `a` has a one-element `anyOf` without null entries; the
source's comparison against the root's `anyOf` length then marks `a`
nullable although nothing was removed from it. -/
def c6doc : Json :=
  Json.obj [("openapi", Json.str "3.1.0"),
    ("anyOf", Json.arr [typeString, typeInteger]),
    ("a", Json.obj [("anyOf", Json.arr [typeString])])]

/-- Input for claim C8: the root's `anyOf` is a dict with two keys; its
own rewrite adds a `nullable` key, so on a second conversion run the
root-length comparison reads three keys instead of two and node `a`
newly becomes nullable. -/
def c8doc : Json :=
  Json.obj [("openapi", Json.str "3.1.0"),
    ("a", Json.obj [("anyOf", Json.arr [typeString, typeInteger])]),
    ("anyOf", Json.obj [("anyOf", Json.arr [typeString]), ("e", Json.num 0)])]

/-- Result of one conversion of `c8doc`. -/
def c8once : Json :=
  Json.obj [("openapi", Json.str "3.0.2"),
    ("a", Json.obj [("anyOf", Json.arr [typeString, typeInteger])]),
    ("anyOf", Json.obj [("anyOf", Json.arr [typeString]), ("e", Json.num 0),
      ("nullable", Json.bool true)])]

/-- Result of converting `c8once` again: node `a` gains `nullable`. -/
def c8twice : Json :=
  Json.obj [("openapi", Json.str "3.0.2"),
    ("a", Json.obj [("anyOf", Json.arr [typeString, typeInteger]),
      ("nullable", Json.bool true)]),
    ("anyOf", Json.obj [("anyOf", Json.arr [typeString]), ("e", Json.num 0),
      ("nullable", Json.bool true)])]

theorem getKey_setKey_self (f : List (String × Json)) (k : String) (v : Json) :
    getKey (setKey f k v) k = some v := by
  induction f with
  | nil => simp [setKey, getKey]
  | cons kv rest ih =>
      obtain ⟨k0, v0⟩ := kv
      by_cases h : k0 = k
      · simp [setKey, h, getKey]
      · simp [setKey, h, getKey, ih]

theorem getKey_setKey_ne (f : List (String × Json)) (k k' : String) (v : Json)
    (h : k' ≠ k) : getKey (setKey f k v) k' = getKey f k' := by
  induction f with
  | nil => simp [setKey, getKey, Ne.symm h]
  | cons kv rest ih =>
      obtain ⟨k0, v0⟩ := kv
      by_cases h0 : k0 = k
      · subst h0
        simp [setKey, getKey, Ne.symm h]
      · simp [setKey, h0, getKey, ih]

theorem getKey_popKey_self (f : List (String × Json)) (k : String) :
    getKey (popKey f k) k = none := by
  induction f with
  | nil => simp [popKey, getKey]
  | cons kv rest ih =>
      obtain ⟨k0, v0⟩ := kv
      by_cases h : k0 = k
      · simpa [popKey, h] using ih
      · simpa [popKey, h, getKey] using ih

theorem getKey_popKey_ne (f : List (String × Json)) (k k' : String)
    (h : k' ≠ k) : getKey (popKey f k) k' = getKey f k' := by
  induction f with
  | nil => simp [popKey]
  | cons kv rest ih =>
      obtain ⟨k0, v0⟩ := kv
      by_cases h0 : k0 = k
      · subst h0
        simp [popKey, getKey, Ne.symm h, ih]
      · simp [popKey, h0, getKey, ih]

theorem mapValsM_getKey (f : Json → Option Json) (l l' : List (String × Json))
    (hm : mapValsM f l = some l') (k : String) :
    getKey l' k = (getKey l k).bind f := by
  induction l generalizing l' with
  | nil =>
      simp [mapValsM] at hm
      subst hm
      simp [getKey]
  | cons kv rest ih =>
      obtain ⟨k0, v0⟩ := kv
      simp only [mapValsM] at hm
      cases hv : f v0 with
      | none => rw [hv] at hm; exact absurd hm (by simp)
      | some v0' =>
          cases hr : mapValsM f rest with
          | none => rw [hv, hr] at hm; exact absurd hm (by simp)
          | some rest' =>
              rw [hv, hr] at hm
              simp only [Option.some.injEq] at hm
              subst hm
              by_cases h0 : k0 = k
              · simp [getKey, h0, hv]
              · simp [getKey, h0, ih rest' hr]

theorem mapValsM_mem (f : Json → Option Json) (l l' : List (String × Json))
    (hm : mapValsM f l = some l') (kv' : String × Json) (hmem : kv' ∈ l') :
    ∃ v, (kv'.1, v) ∈ l ∧ f v = some kv'.2 := by
  induction l generalizing l' with
  | nil =>
      simp [mapValsM] at hm
      subst hm
      simp at hmem
  | cons kv rest ih =>
      obtain ⟨k0, v0⟩ := kv
      simp only [mapValsM] at hm
      cases hv : f v0 with
      | none => rw [hv] at hm; exact absurd hm (by simp)
      | some v0' =>
          cases hr : mapValsM f rest with
          | none => rw [hv, hr] at hm; exact absurd hm (by simp)
          | some rest' =>
              rw [hv, hr] at hm
              simp only [Option.some.injEq] at hm
              subst hm
              rcases List.mem_cons.mp hmem with h | h
              · subst h
                exact ⟨v0, List.mem_cons_self _ _, hv⟩
              · obtain ⟨v, hv1, hv2⟩ := ih rest' hr h
                exact ⟨v, List.mem_cons_of_mem _ hv1, hv2⟩

theorem mapElemsM_mem (f : Json → Option Json) (l l' : List Json)
    (hm : mapElemsM f l = some l') (x' : Json) (hmem : x' ∈ l') :
    ∃ x ∈ l, f x = some x' := by
  induction l generalizing l' with
  | nil =>
      simp [mapElemsM] at hm
      subst hm
      simp at hmem
  | cons x rest ih =>
      simp only [mapElemsM] at hm
      cases hv : f x with
      | none => rw [hv] at hm; exact absurd hm (by simp)
      | some x1 =>
          cases hr : mapElemsM f rest with
          | none => rw [hv, hr] at hm; exact absurd hm (by simp)
          | some rest' =>
              rw [hv, hr] at hm
              simp only [Option.some.injEq] at hm
              subst hm
              rcases List.mem_cons.mp hmem with h | h
              · subst h
                exact ⟨x, List.mem_cons_self _ _, hv⟩
              · obtain ⟨y, hy1, hy2⟩ := ih rest' hr h
                exact ⟨y, List.mem_cons_of_mem _ hy1, hy2⟩

theorem ruleA_getKey_ne (R : Json) (fields f1 : List (String × Json)) (k : String)
    (h1 : k ≠ "anyOf") (h2 : k ≠ "nullable")
    (hA : ruleA R fields = some f1) : getKey f1 k = getKey fields k := by
  unfold ruleA at hA
  cases hv : getKey fields "anyOf" with
  | none => rw [hv] at hA; simp at hA; subst hA; rfl
  | some v =>
      rw [hv] at hA
      cases v with
      | arr l =>
          cases hp : pyLen R with
          | none => rw [hp] at hA; simp at hA
          | some rlen =>
              rw [hp] at hA
              simp only [Option.some.injEq] at hA
              subst hA
              by_cases hlt : (l.filter (fun it => !isNullType it)).length < rlen
              · simp only [hlt, if_pos]
                rw [getKey_setKey_ne _ _ _ _ h2, getKey_setKey_ne _ _ _ _ h1]
              · simp only [hlt, if_neg, not_false_iff]
                rw [getKey_setKey_ne _ _ _ _ h1]
      | obj f => simp at hA; subst hA; rfl
      | str s => simp at hA; subst hA; rfl
      | num n => simp at hA; subst hA; rfl
      | bool b => simp at hA; subst hA; rfl
      | null => simp at hA; subst hA; rfl

theorem ruleA_anyOf_arr (R : Json) (fields f1 : List (String × Json)) (l : List Json)
    (hv : getKey fields "anyOf" = some (Json.arr l))
    (hA : ruleA R fields = some f1) :
    getKey f1 "anyOf" = some (Json.arr (l.filter (fun it => !isNullType it))) := by
  unfold ruleA at hA
  rw [hv] at hA
  cases hp : pyLen R with
  | none => rw [hp] at hA; simp at hA
  | some rlen =>
      rw [hp] at hA
      simp only [Option.some.injEq] at hA
      subst hA
      by_cases hlt : (l.filter (fun it => !isNullType it)).length < rlen
      · simp only [hlt, if_pos]
        rw [getKey_setKey_ne _ _ _ _ (by decide : ("anyOf" : String) ≠ "nullable")]
        exact getKey_setKey_self _ _ _
      · simp only [hlt, if_neg, not_false_iff]
        exact getKey_setKey_self _ _ _

theorem ruleA_of_not_arr (R : Json) (fields : List (String × Json))
    (h : ∀ l, getKey fields "anyOf" ≠ some (Json.arr l)) :
    ruleA R fields = some fields := by
  unfold ruleA
  cases hv : getKey fields "anyOf" with
  | none => rfl
  | some v =>
      cases v with
      | arr l => exact absurd hv (h l)
      | obj f => rfl
      | str s => rfl
      | num n => rfl
      | bool b => rfl
      | null => rfl

theorem ruleB_getKey_ne (fields : List (String × Json)) (k : String)
    (h1 : k ≠ "examples") (h2 : k ≠ "example") :
    getKey (ruleB fields) k = getKey fields k := by
  unfold ruleB
  cases hv : getKey fields "examples" with
  | none => rfl
  | some ex =>
      cases ex with
      | arr l =>
          cases l with
          | nil => exact getKey_popKey_ne _ _ _ h1
          | cons e rest =>
              rw [getKey_setKey_ne _ _ _ _ h2]
              exact getKey_popKey_ne _ _ _ h1
      | obj f => exact getKey_popKey_ne _ _ _ h1
      | str s => exact getKey_popKey_ne _ _ _ h1
      | num n => exact getKey_popKey_ne _ _ _ h1
      | bool b => exact getKey_popKey_ne _ _ _ h1
      | null => exact getKey_popKey_ne _ _ _ h1

theorem ruleB_examples_none (fields : List (String × Json)) :
    getKey (ruleB fields) "examples" = none := by
  unfold ruleB
  cases hv : getKey fields "examples" with
  | none => exact hv
  | some ex =>
      cases ex with
      | arr l =>
          cases l with
          | nil => exact getKey_popKey_self _ _
          | cons e rest =>
              rw [getKey_setKey_ne _ _ _ _ (by decide : ("examples" : String) ≠ "example")]
              exact getKey_popKey_self _ _
      | obj f => exact getKey_popKey_self _ _
      | str s => exact getKey_popKey_self _ _
      | num n => exact getKey_popKey_self _ _
      | bool b => exact getKey_popKey_self _ _
      | null => exact getKey_popKey_self _ _

theorem ruleB_example_of_cons (fields : List (String × Json)) (e : Json) (rest : List Json)
    (hv : getKey fields "examples" = some (Json.arr (e :: rest))) :
    getKey (ruleB fields) "example" = some e := by
  unfold ruleB
  rw [hv]
  exact getKey_setKey_self _ _ _

theorem ruleB_example_of_other (fields : List (String × Json)) (ex : Json)
    (hv : getKey fields "examples" = some ex)
    (hne : ∀ e rest, ex ≠ Json.arr (e :: rest)) :
    getKey (ruleB fields) "example" = getKey fields "example" := by
  unfold ruleB
  rw [hv]
  cases ex with
  | arr l =>
      cases l with
      | nil => exact getKey_popKey_ne _ _ _ (by decide)
      | cons e rest => exact absurd rfl (hne e rest)
  | obj f => exact getKey_popKey_ne _ _ _ (by decide)
  | str s => exact getKey_popKey_ne _ _ _ (by decide)
  | num n => exact getKey_popKey_ne _ _ _ (by decide)
  | bool b => exact getKey_popKey_ne _ _ _ (by decide)
  | null => exact getKey_popKey_ne _ _ _ (by decide)

theorem inner_obj_inv (m : Nat) (R : Json) (fields : List (String × Json)) (out : Json)
    (h : innerConv m R (Json.obj fields) = some out) :
    ∃ fuel f1 vs, m = fuel + 1 ∧ ruleA R fields = some f1 ∧
      mapValsM (fun v => innerConv fuel R v) (ruleB f1) = some vs ∧ out = Json.obj vs := by
  cases m with
  | zero => simp [innerConv] at h
  | succ fuel =>
      simp only [innerConv] at h
      cases hA : ruleA R fields with
      | none => rw [hA] at h; simp at h
      | some f1 =>
          rw [hA] at h
          dsimp only at h
          cases hM : mapValsM (fun v => innerConv fuel R v) (ruleB f1) with
          | none => rw [hM] at h; simp at h
          | some vs =>
              rw [hM] at h
              simp only [Option.some.injEq] at h
              exact ⟨fuel, f1, vs, rfl, rfl, hM, h.symm⟩

theorem inner_arr_inv (m : Nat) (R : Json) (l : List Json) (out : Json)
    (h : innerConv m R (Json.arr l) = some out) :
    ∃ fuel l2, m = fuel + 1 ∧ mapElemsM (fun v => innerConv fuel R v) l = some l2 ∧
      out = Json.arr l2 := by
  cases m with
  | zero => simp [innerConv] at h
  | succ fuel =>
      simp only [innerConv] at h
      cases hM : mapElemsM (fun v => innerConv fuel R v) l with
      | none => rw [hM] at h; simp at h
      | some l2 =>
          rw [hM] at h
          simp only [Option.some.injEq] at h
          exact ⟨fuel, l2, rfl, hM, h.symm⟩

theorem inner_str_inv (m : Nat) (R : Json) (s : String) (out : Json)
    (h : innerConv m R (Json.str s) = some out) : out = Json.str s := by
  cases m with
  | zero => simp [innerConv] at h
  | succ fuel => simp only [innerConv, Option.some.injEq] at h; exact h.symm

theorem inner_num_inv (m : Nat) (R : Json) (n : Int) (out : Json)
    (h : innerConv m R (Json.num n) = some out) : out = Json.num n := by
  cases m with
  | zero => simp [innerConv] at h
  | succ fuel => simp only [innerConv, Option.some.injEq] at h; exact h.symm

theorem inner_bool_inv (m : Nat) (R : Json) (b : Bool) (out : Json)
    (h : innerConv m R (Json.bool b) = some out) : out = Json.bool b := by
  cases m with
  | zero => simp [innerConv] at h
  | succ fuel => simp only [innerConv, Option.some.injEq] at h; exact h.symm

theorem inner_null_inv (m : Nat) (R : Json) (out : Json)
    (h : innerConv m R Json.null = some out) : out = Json.null := by
  cases m with
  | zero => simp [innerConv] at h
  | succ fuel => simp only [innerConv, Option.some.injEq] at h; exact h.symm

theorem getKey_mem (l : List (String × Json)) (k : String) (v : Json)
    (h : getKey l k = some v) : (k, v) ∈ l := by
  induction l with
  | nil => simp [getKey] at h
  | cons kv rest ih =>
      obtain ⟨k0, v0⟩ := kv
      by_cases h0 : k0 = k
      · subst h0
        simp [getKey] at h
        subst h
        exact List.mem_cons_self _ _
      · simp [getKey, h0] at h
        exact List.mem_cons_of_mem _ (ih h)

theorem mapValsM_success (f : Json → Option Json) (l l' : List (String × Json))
    (hm : mapValsM f l = some l') (kv : String × Json) (hmem : kv ∈ l) :
    ∃ v', f kv.2 = some v' := by
  induction l generalizing l' with
  | nil => simp at hmem
  | cons kv0 rest ih =>
      obtain ⟨k0, v0⟩ := kv0
      simp only [mapValsM] at hm
      cases hv : f v0 with
      | none => rw [hv] at hm; exact absurd hm (by simp)
      | some v0' =>
          cases hr : mapValsM f rest with
          | none => rw [hv, hr] at hm; exact absurd hm (by simp)
          | some rest' =>
              rcases List.mem_cons.mp hmem with h | h
              · subst h
                exact ⟨v0', hv⟩
              · exact ih rest' hr h

theorem ruleA_anyOf_none (R : Json) (fields f1 : List (String × Json))
    (hv : getKey fields "anyOf" = none)
    (hA : ruleA R fields = some f1) : getKey f1 "anyOf" = none := by
  rw [ruleA_of_not_arr R fields (by intro l hc; rw [hv] at hc; cases hc)] at hA
  simp only [Option.some.injEq] at hA
  subst hA
  exact hv

theorem ruleA_anyOf_nonarr (R : Json) (fields f1 : List (String × Json)) (v : Json)
    (hv : getKey fields "anyOf" = some v) (hnl : ∀ l, v ≠ Json.arr l)
    (hA : ruleA R fields = some f1) : getKey f1 "anyOf" = some v := by
  have hnot : ∀ l, getKey fields "anyOf" ≠ some (Json.arr l) := by
    intro l hc
    rw [hv] at hc
    simp only [Option.some.injEq] at hc
    exact hnl l hc
  rw [ruleA_of_not_arr R fields hnot] at hA
  simp only [Option.some.injEq] at hA
  subst hA
  exact hv

theorem innerConv_isNullType (m : Nat) (R j j' : Json)
    (h : innerConv m R j = some j') : isNullType j' = isNullType j := by
  cases j with
  | obj fields =>
      obtain ⟨fuel, f1, vs, hm, hA, hM, hout⟩ := inner_obj_inv m R fields j' h
      subst hout
      have htypeB : getKey (ruleB f1) "type" = getKey fields "type" := by
        rw [ruleB_getKey_ne _ _ (by decide) (by decide)]
        exact ruleA_getKey_ne R fields f1 "type" (by decide) (by decide) hA
      have hvs := mapValsM_getKey _ _ _ hM "type"
      rw [htypeB] at hvs
      cases hget : getKey fields "type" with
      | none =>
          rw [hget] at hvs
          simp only [Option.bind_eq_bind, Option.none_bind] at hvs
          simp [isNullType, hvs, hget]
      | some v =>
          rw [hget] at hvs
          simp only [Option.bind_eq_bind, Option.some_bind] at hvs
          have hmem : ("type", v) ∈ ruleB f1 := getKey_mem _ _ _ (by rw [htypeB]; exact hget)
          obtain ⟨v', hv'⟩ := mapValsM_success _ _ _ hM ("type", v) hmem
          rw [hv'] at hvs
          cases v with
          | str s =>
              have heq := inner_str_inv _ _ _ _ hv'
              subst heq
              simp [isNullType, hvs, hget]
          | obj f2 =>
              obtain ⟨_, _, vs2, _, _, _, hsh⟩ := inner_obj_inv _ _ _ _ hv'
              subst hsh
              simp [isNullType, hvs, hget]
          | arr l2 =>
              obtain ⟨_, l3, _, _, hsh⟩ := inner_arr_inv _ _ _ _ hv'
              subst hsh
              simp [isNullType, hvs, hget]
          | num n =>
              have heq := inner_num_inv _ _ _ _ hv'
              subst heq
              simp [isNullType, hvs, hget]
          | bool b =>
              have heq := inner_bool_inv _ _ _ _ hv'
              subst heq
              simp [isNullType, hvs, hget]
          | null =>
              have heq := inner_null_inv _ _ _ hv'
              subst heq
              simp [isNullType, hvs, hget]
  | arr l =>
      obtain ⟨fuel, l2, hm, hM, hout⟩ := inner_arr_inv m R l j' h
      subst hout
      rfl
  | str s =>
      have heq := inner_str_inv m R s j' h
      subst heq
      rfl
  | num n =>
      have heq := inner_num_inv m R n j' h
      subst heq
      rfl
  | bool b =>
      have heq := inner_bool_inv m R b j' h
      subst heq
      rfl
  | null =>
      have heq := inner_null_inv m R j' h
      subst heq
      rfl

theorem innerConv_clean (m : Nat) :
    ∀ (R j out : Json), innerConv m R j = some out → Clean out := by
  induction m with
  | zero => intro R j out h; simp [innerConv] at h
  | succ fuel ih =>
      intro R j out h
      cases j with
      | obj fields =>
          obtain ⟨fuel', f1, vs, hm, hA, hM, hout⟩ := inner_obj_inv _ R fields out h
          have hf : fuel' = fuel := by omega
          subst hf
          subst hout
          constructor
          · intro l' hget it hit
            have hvs := mapValsM_getKey _ _ _ hM "anyOf"
            rw [ruleB_getKey_ne _ _ (by decide) (by decide)] at hvs
            cases horig : getKey fields "anyOf" with
            | none =>
                rw [ruleA_anyOf_none R fields f1 horig hA] at hvs
                simp only [Option.bind_eq_bind, Option.none_bind] at hvs
                rw [hvs] at hget
                cases hget
            | some v =>
                cases v with
                | arr l =>
                    rw [ruleA_anyOf_arr R fields f1 l horig hA] at hvs
                    simp only [Option.bind_eq_bind, Option.some_bind] at hvs
                    rw [hvs] at hget
                    obtain ⟨fuel2, l2, hm2, hM2, hsh⟩ := inner_arr_inv _ _ _ _ hget
                    simp only [Json.arr.injEq] at hsh
                    subst hsh
                    obtain ⟨x, hx1, hx2⟩ := mapElemsM_mem _ _ _ hM2 it hit
                    have hxf := List.mem_filter.mp hx1
                    have : isNullType x = false := by
                      have := hxf.2
                      simpa using this
                    rw [innerConv_isNullType _ _ _ _ hx2, this]
                | obj f2 =>
                    rw [ruleA_anyOf_nonarr R fields f1 _ horig (by intro l hc; cases hc) hA] at hvs
                    simp only [Option.bind_eq_bind, Option.some_bind] at hvs
                    rw [hvs] at hget
                    obtain ⟨_, _, vs2, _, _, _, hsh⟩ := inner_obj_inv _ _ _ _ hget
                    cases hsh
                | str s =>
                    rw [ruleA_anyOf_nonarr R fields f1 _ horig (by intro l hc; cases hc) hA] at hvs
                    simp only [Option.bind_eq_bind, Option.some_bind] at hvs
                    rw [hvs] at hget
                    have hsh := inner_str_inv _ _ _ _ hget
                    cases hsh
                | num n =>
                    rw [ruleA_anyOf_nonarr R fields f1 _ horig (by intro l hc; cases hc) hA] at hvs
                    simp only [Option.bind_eq_bind, Option.some_bind] at hvs
                    rw [hvs] at hget
                    have hsh := inner_num_inv _ _ _ _ hget
                    cases hsh
                | bool b =>
                    rw [ruleA_anyOf_nonarr R fields f1 _ horig (by intro l hc; cases hc) hA] at hvs
                    simp only [Option.bind_eq_bind, Option.some_bind] at hvs
                    rw [hvs] at hget
                    have hsh := inner_bool_inv _ _ _ _ hget
                    cases hsh
                | null =>
                    rw [ruleA_anyOf_nonarr R fields f1 _ horig (by intro l hc; cases hc) hA] at hvs
                    simp only [Option.bind_eq_bind, Option.some_bind] at hvs
                    rw [hvs] at hget
                    have hsh := inner_null_inv _ _ _ hget
                    cases hsh
          · intro kv hkv
            obtain ⟨v, hv1, hv2⟩ := mapValsM_mem _ _ _ hM kv hkv
            exact ih R v _ hv2
      | arr l =>
          obtain ⟨fuel', l2, hm, hM, hout⟩ := inner_arr_inv _ R l out h
          have hf : fuel' = fuel := by omega
          subst hf
          subst hout
          constructor
          intro x hx
          obtain ⟨y, hy1, hy2⟩ := mapElemsM_mem _ _ _ hM x hx
          exact ih R y x hy2
      | str s =>
          have heq := inner_str_inv _ R s out h
          subst heq
          exact Clean.str s
      | num n =>
          have heq := inner_num_inv _ R n out h
          subst heq
          exact Clean.num n
      | bool b =>
          have heq := inner_bool_inv _ R b out h
          subst heq
          exact Clean.bool b
      | null =>
          have heq := inner_null_inv _ R out h
          subst heq
          exact Clean.null

theorem innerConv_noEx (m : Nat) :
    ∀ (R j out : Json), innerConv m R j = some out → NoEx out := by
  induction m with
  | zero => intro R j out h; simp [innerConv] at h
  | succ fuel ih =>
      intro R j out h
      cases j with
      | obj fields =>
          obtain ⟨fuel', f1, vs, hm, hA, hM, hout⟩ := inner_obj_inv _ R fields out h
          have hf : fuel' = fuel := by omega
          subst hf
          subst hout
          constructor
          · have hvs := mapValsM_getKey _ _ _ hM "examples"
            rw [ruleB_examples_none] at hvs
            simpa using hvs
          · intro kv hkv
            obtain ⟨v, hv1, hv2⟩ := mapValsM_mem _ _ _ hM kv hkv
            exact ih R v _ hv2
      | arr l =>
          obtain ⟨fuel', l2, hm, hM, hout⟩ := inner_arr_inv _ R l out h
          have hf : fuel' = fuel := by omega
          subst hf
          subst hout
          constructor
          intro x hx
          obtain ⟨y, hy1, hy2⟩ := mapElemsM_mem _ _ _ hM x hx
          exact ih R y x hy2
      | str s =>
          have heq := inner_str_inv _ R s out h
          subst heq
          exact NoEx.str s
      | num n =>
          have heq := inner_num_inv _ R n out h
          subst heq
          exact NoEx.num n
      | bool b =>
          have heq := inner_bool_inv _ R b out h
          subst heq
          exact NoEx.bool b
      | null =>
          have heq := inner_null_inv _ R out h
          subst heq
          exact NoEx.null

/-- Claim C1: the claim asks for `nullable = true` on every node whose own
`anyOf` shrank; the code instead compares against the root document's
`anyOf` length (line 26), so on `c1doc` the nested node `a` loses its
null-typed entry but receives no `nullable` field. -/
theorem claim_C1_code_behavior :
    convert_3_dot_1_to_3_dot_0 c1doc =
      some (Json.obj [("openapi", Json.str "3.0.2"),
        ("a", Json.obj [("anyOf", Json.arr [typeString])])]) ∧
    getKey [("anyOf", Json.arr [typeString])] "nullable" = none :=
  ⟨rfl, rfl⟩

/-- Claim C2: on the end-to-end input the code returns a `Pet` without the
expected `nullable = true` field (same root-length comparison defect), so
the output differs from the claimed document exactly there. -/
theorem claim_C2_code_behavior :
    convert_3_dot_1_to_3_dot_0 petDoc =
      some (Json.obj [("openapi", Json.str "3.0.2"),
        ("components", Json.obj
          [("schemas", Json.obj
            [("Pet", Json.obj
              [("anyOf", Json.arr [Json.obj [("type", Json.str "object")]]),
               ("example", Json.obj [("id", Json.num 1)])])])])]) ∧
    getKey [("anyOf", Json.arr [Json.obj [("type", Json.str "object")]]),
      ("example", Json.obj [("id", Json.num 1)])] "nullable" = none :=
  ⟨rfl, rfl⟩

/-- Claim C3: for every input document with a dict root, every dict node of
the converted tree that has an `anyOf` field holding a list contains no
null-typed dict entry in that list. -/
theorem claim_C3_no_residual_null_anyOf (fields : List (String × Json)) (out : Json)
    (h : convert_3_dot_1_to_3_dot_0 (Json.obj fields) = some out) : Clean out := by
  unfold convert_3_dot_1_to_3_dot_0 at h
  exact innerConv_clean _ _ _ _ h

/-- Claim C3, witness: the conversion of a concrete document containing a
null-typed `anyOf` entry satisfies the invariant. -/
theorem claim_C3_witness :
    Clean (Json.obj [("x", Json.arr [Json.obj [("anyOf", Json.arr [])]]),
      ("openapi", Json.str "3.0.2")]) :=
  claim_C3_no_residual_null_anyOf
    [("x", Json.arr [Json.obj [("anyOf", Json.arr [typeNull])]])] _ rfl

/-- Claim C4: for every input document with a dict root, no dict node of
the converted tree has a field named `examples`. -/
theorem claim_C4_no_examples_field (fields : List (String × Json)) (out : Json)
    (h : convert_3_dot_1_to_3_dot_0 (Json.obj fields) = some out) : NoEx out := by
  unfold convert_3_dot_1_to_3_dot_0 at h
  exact innerConv_noEx _ _ _ _ h

/-- Claim C4, witness: the conversion of a concrete document with an
`examples` field satisfies the invariant. -/
theorem claim_C4_witness :
    NoEx (Json.obj [("openapi", Json.str "3.0.2"), ("example", Json.str "a")]) :=
  claim_C4_no_examples_field
    [("examples", Json.arr [Json.str "a", Json.str "b"])] _ rfl

/-- Claim C5, counterexample: the output `example` field is the
recursively converted first element of the removed `examples` list, not
the first element itself; on `c5doc` the element `{"examples": [1]}`
appears in the output as `{"example": 1}`. -/
theorem claim_C5_counterexample :
    convert_3_dot_1_to_3_dot_0 c5doc =
      some (Json.obj [("a", Json.obj [("example", Json.obj [("example", Json.num 1)])]),
        ("openapi", Json.str "3.0.2")]) ∧
    getKey [("example", Json.obj [("example", Json.num 1)])] "example" =
      some (Json.obj [("example", Json.num 1)]) ∧
    Json.obj [("example", Json.num 1)] ≠ Json.obj [("examples", Json.arr [Json.num 1])] :=
  ⟨rfl, rfl, by simp⟩

/-- Claim C5, amended: for a dict node whose `examples` field holds a
non-empty list, the converted node's `example` field is the recursively
converted first element of that list; when `examples` holds an empty list
or a non-list, the `example` field is exactly the converted original
`example` field (in particular none is added). -/
theorem claim_C5_examples_collapsing (m : Nat) (R : Json)
    (fields vs : List (String × Json)) (e ex : Json) (rest : List Json)
    (h : innerConv (m + 1) R (Json.obj fields) = some (Json.obj vs)) :
    (getKey fields "examples" = some (Json.arr (e :: rest)) →
      getKey vs "example" = innerConv m R e) ∧
    (getKey fields "examples" = some ex → (∀ e2 rest2, ex ≠ Json.arr (e2 :: rest2)) →
      getKey vs "example" = (getKey fields "example").bind (fun v => innerConv m R v)) := by
  obtain ⟨fuel, f1, vsx, hm, hA, hM, hout⟩ := inner_obj_inv _ _ _ _ h
  have hf : fuel = m := by omega
  subst hf
  simp only [Json.obj.injEq] at hout
  subst hout
  have hexB : getKey f1 "examples" = getKey fields "examples" :=
    ruleA_getKey_ne R fields f1 "examples" (by decide) (by decide) hA
  constructor
  · intro hex
    have hvs := mapValsM_getKey _ _ _ hM "example"
    rw [ruleB_example_of_cons f1 e rest (by rw [hexB]; exact hex)] at hvs
    simpa using hvs
  · intro hex hne
    have hvs := mapValsM_getKey _ _ _ hM "example"
    rw [ruleB_example_of_other f1 ex (by rw [hexB]; exact hex) hne] at hvs
    rw [ruleA_getKey_ne R fields f1 "example" (by decide) (by decide) hA] at hvs
    exact hvs

/-- Claim C5, witness: a node with `examples = ["a", "b"]` gets
`example = "a"`. -/
theorem claim_C5_witness :
    getKey [("example", Json.str "a")] "example" =
      innerConv 1 (Json.arr []) (Json.str "a") :=
  (claim_C5_examples_collapsing 1 (Json.arr [])
    [("examples", Json.arr [Json.str "a", Json.str "b"])]
    [("example", Json.str "a")] (Json.str "a") Json.null [Json.str "b"] rfl).1 rfl

/-- Claim C6: the claim asks that a node whose `anyOf` has no null-typed
entry be left without a `nullable` field; because the code compares
against the root's `anyOf` length, on `c6doc` the node `a` (one-element
`anyOf`, no null entries, root `anyOf` of length two) nevertheless gets
`nullable = true`. -/
theorem claim_C6_code_behavior :
    convert_3_dot_1_to_3_dot_0 c6doc =
      some (Json.obj [("openapi", Json.str "3.0.2"),
        ("anyOf", Json.arr [typeString, typeInteger]),
        ("a", Json.obj [("anyOf", Json.arr [typeString]),
          ("nullable", Json.bool true)])]) ∧
    getKey [("anyOf", Json.arr [typeString]), ("nullable", Json.bool true)]
      "nullable" = some (Json.bool true) :=
  ⟨rfl, rfl⟩

/-- Claim C7: for every input document with a dict root, the converted
root dict's `openapi` field is the string `"3.0.2"`. -/
theorem claim_C7_version_stamp (fields vs : List (String × Json))
    (h : convert_3_dot_1_to_3_dot_0 (Json.obj fields) = some (Json.obj vs)) :
    getKey vs "openapi" = some (Json.str "3.0.2") := by
  unfold convert_3_dot_1_to_3_dot_0 at h
  obtain ⟨fuel, f1, vsx, hm, hA, hM, hout⟩ := inner_obj_inv _ _ _ _ h
  simp only [Json.obj.injEq] at hout
  subst hout
  have hvs := mapValsM_getKey _ _ _ hM "openapi"
  rw [ruleB_getKey_ne _ _ (by decide) (by decide),
    ruleA_getKey_ne _ _ _ _ (by decide) (by decide) hA,
    getKey_setKey_self] at hvs
  simp only [Option.bind_eq_bind, Option.some_bind] at hvs
  have hmem : ("openapi", Json.str "3.0.2") ∈ ruleB f1 := by
    apply getKey_mem
    rw [ruleB_getKey_ne _ _ (by decide) (by decide),
      ruleA_getKey_ne _ _ _ _ (by decide) (by decide) hA]
    exact getKey_setKey_self _ _ _
  obtain ⟨v', hv'⟩ := mapValsM_success _ _ _ hM _ hmem
  have hstr := inner_str_inv _ _ _ _ hv'
  subst hstr
  rw [hv'] at hvs
  exact hvs

/-- Claim C7, witness: a concrete document with `openapi = "3.1.0"` comes
out stamped `"3.0.2"`. -/
theorem claim_C7_witness :
    getKey [("openapi", Json.str "3.0.2")] "openapi" = some (Json.str "3.0.2") :=
  claim_C7_version_stamp [("openapi", Json.str "3.1.0")] _ rfl

/-- Claim C8: conversion is not idempotent.  On `c8doc` the root's `anyOf`
is a dict that gains a `nullable` key in the first pass, so the second
pass reads a larger root length and adds `nullable` to node `a`; the two
results differ, against the claim. -/
theorem claim_C8_code_behavior :
    convert_3_dot_1_to_3_dot_0 c8doc = some c8once ∧
    convert_3_dot_1_to_3_dot_0 c8once = some c8twice ∧
    c8once ≠ c8twice :=
  ⟨rfl, rfl, by simp [c8once, c8twice]⟩

/-- Claim C9: frame property of the per-node rewrite.  For every dict node,
every key other than `anyOf`, `nullable`, `examples` and `example` is
present in the output exactly when it is present in the input, with the
recursively converted value; scalar leaves pass through unchanged. -/
theorem claim_C9_frame (m : Nat) (R : Json) (fields vs : List (String × Json))
    (k : String) (s : String) (n : Int) (b : Bool) :
    (innerConv (m + 1) R (Json.obj fields) = some (Json.obj vs) →
      k ≠ "anyOf" → k ≠ "nullable" → k ≠ "examples" → k ≠ "example" →
      getKey vs k = (getKey fields k).bind (fun v => innerConv m R v)) ∧
    innerConv (m + 1) R (Json.str s) = some (Json.str s) ∧
    innerConv (m + 1) R (Json.num n) = some (Json.num n) ∧
    innerConv (m + 1) R (Json.bool b) = some (Json.bool b) ∧
    innerConv (m + 1) R Json.null = some Json.null := by
  refine ⟨?_, rfl, rfl, rfl, rfl⟩
  intro h h1 h2 h3 h4
  obtain ⟨fuel, f1, vsx, hm, hA, hM, hout⟩ := inner_obj_inv _ _ _ _ h
  have hf : fuel = m := by omega
  subst hf
  simp only [Json.obj.injEq] at hout
  subst hout
  have hvs := mapValsM_getKey _ _ _ hM k
  rw [ruleB_getKey_ne _ _ h3 h4, ruleA_getKey_ne _ _ _ _ h1 h2 hA] at hvs
  exact hvs

/-- Claim C9, witness: a plain field of a concrete node is carried over
with its converted value. -/
theorem claim_C9_witness :
    getKey [("k", Json.str "v")] "k" =
      (getKey [("k", Json.str "v")] "k").bind (fun v => innerConv 1 (Json.arr []) v) :=
  (claim_C9_frame 1 (Json.arr []) [("k", Json.str "v")] [("k", Json.str "v")]
    "k" "s" 0 true).1 rfl (by decide) (by decide) (by decide) (by decide)

/-- Claim C10: for a dict node whose `anyOf` field is not a list, rule A
is skipped: the output `anyOf` is just the recursively converted original
value, and the `nullable` field is exactly the converted original
`nullable` field (in particular none is added). -/
theorem claim_C10_nonlist_anyOf (m : Nat) (R : Json)
    (fields vs : List (String × Json)) (v : Json)
    (hv : getKey fields "anyOf" = some v) (hnl : ∀ l, v ≠ Json.arr l)
    (h : innerConv (m + 1) R (Json.obj fields) = some (Json.obj vs)) :
    getKey vs "anyOf" = innerConv m R v ∧
    getKey vs "nullable" = (getKey fields "nullable").bind (fun w => innerConv m R w) := by
  obtain ⟨fuel, f1, vsx, hm, hA, hM, hout⟩ := inner_obj_inv _ _ _ _ h
  have hf : fuel = m := by omega
  subst hf
  simp only [Json.obj.injEq] at hout
  subst hout
  have hf1 : f1 = fields := by
    have hnot : ∀ l, getKey fields "anyOf" ≠ some (Json.arr l) := by
      intro l hc
      rw [hv] at hc
      simp only [Option.some.injEq] at hc
      exact hnl l hc
    rw [ruleA_of_not_arr R fields hnot] at hA
    exact (Option.some.inj hA).symm
  subst hf1
  constructor
  · have hvs := mapValsM_getKey _ _ _ hM "anyOf"
    rw [ruleB_getKey_ne _ _ (by decide) (by decide), hv] at hvs
    simpa using hvs
  · have hvs := mapValsM_getKey _ _ _ hM "nullable"
    rw [ruleB_getKey_ne _ _ (by decide) (by decide)] at hvs
    exact hvs

/-- Claim C10, witness: a node whose `anyOf` is the string `"weird"` keeps
it unchanged and gains no `nullable`. -/
theorem claim_C10_witness :
    getKey [("anyOf", Json.str "weird")] "anyOf" =
      innerConv 1 (Json.arr []) (Json.str "weird") ∧
    getKey [("anyOf", Json.str "weird")] "nullable" =
      (getKey [("anyOf", Json.str "weird")] "nullable").bind
        (fun w => innerConv 1 (Json.arr []) w) :=
  claim_C10_nonlist_anyOf 1 (Json.arr []) [("anyOf", Json.str "weird")]
    [("anyOf", Json.str "weird")] (Json.str "weird") rfl
    (fun _ hc => Json.noConfusion hc) rfl

theorem jsize_pos (j : Json) : 1 ≤ jsize j := by
  cases j <;> simp [jsize]

theorem jsizeF_mem (fields : List (String × Json)) (k : String) (v : Json)
    (h : (k, v) ∈ fields) : jsize v < jsizeF fields := by
  induction fields with
  | nil => simp at h
  | cons kv rest ih =>
      obtain ⟨k0, v0⟩ := kv
      rcases List.mem_cons.mp h with h | h
      · simp only [Prod.mk.injEq] at h
        obtain ⟨h1, h2⟩ := h
        subst h2
        simp [jsizeF]
        omega
      · have := ih h
        simp [jsizeF]
        omega

theorem jsizeL_mem (l : List Json) (x : Json) (h : x ∈ l) :
    jsize x < jsizeL l := by
  induction l with
  | nil => simp at h
  | cons y rest ih =>
      rcases List.mem_cons.mp h with h | h
      · subst h
        simp [jsizeL]
        omega
      · have := ih h
        simp [jsizeL]
        omega

theorem jsizeL_filter_le (p : Json → Bool) (l : List Json) :
    jsizeL (l.filter p) ≤ jsizeL l := by
  induction l with
  | nil => simp
  | cons x rest ih =>
      cases hp : p x with
      | true =>
          simp [List.filter_cons, hp, jsizeL]
          omega
      | false =>
          simp [List.filter_cons, hp, jsizeL]
          omega

theorem setKey_mem_val (f : List (String × Json)) (k k' : String) (v v' : Json)
    (h : (k', v') ∈ setKey f k v) : (k', v') ∈ f ∨ v' = v := by
  induction f with
  | nil =>
      simp [setKey] at h
      exact Or.inr h.2
  | cons kv rest ih =>
      obtain ⟨k0, v0⟩ := kv
      by_cases h0 : k0 = k
      · simp only [setKey, h0, if_pos] at h
        rcases List.mem_cons.mp h with h | h
        · simp only [Prod.mk.injEq] at h
          exact Or.inr h.2
        · exact Or.inl (List.mem_cons_of_mem _ h)
      · simp only [setKey, h0, if_neg, not_false_iff] at h
        rcases List.mem_cons.mp h with h | h
        · rw [h]
          exact Or.inl (List.mem_cons_self _ _)
        · rcases ih h with h | h
          · exact Or.inl (List.mem_cons_of_mem _ h)
          · exact Or.inr h

theorem popKey_mem (f : List (String × Json)) (k : String) (kv : String × Json)
    (h : kv ∈ popKey f k) : kv ∈ f := by
  induction f with
  | nil => simp [popKey] at h
  | cons kv0 rest ih =>
      obtain ⟨k0, v0⟩ := kv0
      by_cases h0 : k0 = k
      · simp only [popKey, h0, if_pos] at h
        exact List.mem_cons_of_mem _ (ih h)
      · simp only [popKey, h0, if_neg, not_false_iff] at h
        rcases List.mem_cons.mp h with h | h
        · subst h
          exact List.mem_cons_self _ _
        · exact List.mem_cons_of_mem _ (ih h)

theorem ruleA_isSome (R : Json) (fields : List (String × Json)) (r : Nat)
    (hR : pyLen R = some r) : ∃ f1, ruleA R fields = some f1 := by
  unfold ruleA
  cases hv : getKey fields "anyOf" with
  | none => exact ⟨fields, rfl⟩
  | some v =>
      cases v with
      | arr l => rw [hR]; exact ⟨_, rfl⟩
      | obj f => exact ⟨fields, rfl⟩
      | str s => exact ⟨fields, rfl⟩
      | num n => exact ⟨fields, rfl⟩
      | bool b => exact ⟨fields, rfl⟩
      | null => exact ⟨fields, rfl⟩

theorem ruleA_mem_size (R : Json) (fields f1 : List (String × Json))
    (k' : String) (v' : Json) (hA : ruleA R fields = some f1)
    (h : (k', v') ∈ f1) : jsize v' < 1 + jsizeF fields := by
  unfold ruleA at hA
  cases hv : getKey fields "anyOf" with
  | none =>
      rw [hv] at hA
      simp only [Option.some.injEq] at hA
      subst hA
      have := jsizeF_mem fields k' v' h
      omega
  | some v =>
      rw [hv] at hA
      cases v with
      | arr l =>
          cases hp : pyLen R with
          | none => rw [hp] at hA; simp at hA
          | some rlen =>
              rw [hp] at hA
              simp only [Option.some.injEq] at hA
              subst hA
              have hanyOf := jsizeF_mem fields "anyOf" (Json.arr l) (getKey_mem _ _ _ hv)
              have hfl : jsize (Json.arr (l.filter (fun it => !isNullType it))) ≤
                  jsize (Json.arr l) := by
                simp only [jsize]
                have := jsizeL_filter_le (fun it => !isNullType it) l
                omega
              by_cases hlt : (l.filter (fun it => !isNullType it)).length < rlen
              · rw [if_pos hlt] at h
                rcases setKey_mem_val _ _ _ _ _ h with h | h
                · rcases setKey_mem_val _ _ _ _ _ h with h | h
                  · have := jsizeF_mem fields k' v' h
                    omega
                  · subst h
                    omega
                · subst h
                  have := jsize_pos (Json.arr l)
                  simp only [jsize]
                  omega
              · rw [if_neg hlt] at h
                rcases setKey_mem_val _ _ _ _ _ h with h | h
                · have := jsizeF_mem fields k' v' h
                  omega
                · subst h
                  omega
      | obj f =>
          simp only [Option.some.injEq] at hA
          subst hA
          have := jsizeF_mem fields k' v' h
          omega
      | str s =>
          simp only [Option.some.injEq] at hA
          subst hA
          have := jsizeF_mem fields k' v' h
          omega
      | num n =>
          simp only [Option.some.injEq] at hA
          subst hA
          have := jsizeF_mem fields k' v' h
          omega
      | bool b =>
          simp only [Option.some.injEq] at hA
          subst hA
          have := jsizeF_mem fields k' v' h
          omega
      | null =>
          simp only [Option.some.injEq] at hA
          subst hA
          have := jsizeF_mem fields k' v' h
          omega

theorem ruleB_mem_size (R : Json) (fields f1 : List (String × Json))
    (k' : String) (v' : Json) (hA : ruleA R fields = some f1)
    (h : (k', v') ∈ ruleB f1) : jsize v' < 1 + jsizeF fields := by
  unfold ruleB at h
  cases hex : getKey f1 "examples" with
  | none =>
      rw [hex] at h
      exact ruleA_mem_size R fields f1 k' v' hA h
  | some ex =>
      rw [hex] at h
      cases ex with
      | arr l =>
          cases l with
          | nil =>
              exact ruleA_mem_size R fields f1 k' v' hA (popKey_mem _ _ _ h)
          | cons e restL =>
              rcases setKey_mem_val _ _ _ _ _ h with h | h
              · exact ruleA_mem_size R fields f1 k' v' hA (popKey_mem _ _ _ h)
              · subst h
                have hm := ruleA_mem_size R fields f1 "examples"
                  (Json.arr (v' :: restL)) hA (getKey_mem _ _ _ hex)
                simp only [jsize, jsizeL] at hm
                omega
      | obj f => exact ruleA_mem_size R fields f1 k' v' hA (popKey_mem _ _ _ h)
      | str s => exact ruleA_mem_size R fields f1 k' v' hA (popKey_mem _ _ _ h)
      | num n => exact ruleA_mem_size R fields f1 k' v' hA (popKey_mem _ _ _ h)
      | bool b => exact ruleA_mem_size R fields f1 k' v' hA (popKey_mem _ _ _ h)
      | null => exact ruleA_mem_size R fields f1 k' v' hA (popKey_mem _ _ _ h)

theorem mapValsM_isSome (f : Json → Option Json) (l : List (String × Json))
    (h : ∀ kv ∈ l, (f (Prod.snd kv)).isSome) : (mapValsM f l).isSome := by
  induction l with
  | nil => simp [mapValsM]
  | cons kv rest ih =>
      obtain ⟨k0, v0⟩ := kv
      have h0 := h (k0, v0) (List.mem_cons_self _ _)
      obtain ⟨v', hv⟩ := Option.isSome_iff_exists.mp h0
      have hrest := ih (fun kv hkv => h kv (List.mem_cons_of_mem _ hkv))
      obtain ⟨rest', hr⟩ := Option.isSome_iff_exists.mp hrest
      simp [mapValsM, hv, hr]

theorem mapElemsM_isSome (f : Json → Option Json) (l : List Json)
    (h : ∀ x ∈ l, (f x).isSome) : (mapElemsM f l).isSome := by
  induction l with
  | nil => simp [mapElemsM]
  | cons x rest ih =>
      have h0 := h x (List.mem_cons_self _ _)
      obtain ⟨x', hx⟩ := Option.isSome_iff_exists.mp h0
      have hrest := ih (fun y hy => h y (List.mem_cons_of_mem _ hy))
      obtain ⟨rest', hr⟩ := Option.isSome_iff_exists.mp hrest
      simp [mapElemsM, hx, hr]

theorem innerConv_total (R : Json) (r : Nat) (hR : pyLen R = some r) :
    ∀ (fuel : Nat) (j : Json), jsize j ≤ fuel → (innerConv fuel R j).isSome := by
  intro fuel
  induction fuel with
  | zero =>
      intro j hj
      have := jsize_pos j
      omega
  | succ fuel ih =>
      intro j hj
      cases j with
      | obj fields =>
          obtain ⟨f1, hA⟩ := ruleA_isSome R fields r hR
          have hsz : jsize (Json.obj fields) = 1 + jsizeF fields := by simp [jsize]
          have hvals : ∀ kv ∈ ruleB f1, ((fun v => innerConv fuel R v) (Prod.snd kv)).isSome := by
            intro kv hkv
            apply ih
            have hb := ruleB_mem_size R fields f1 (Prod.fst kv) (Prod.snd kv) hA
              (by simpa using hkv)
            omega
          have hM := mapValsM_isSome _ _ hvals
          obtain ⟨vs, hvs⟩ := Option.isSome_iff_exists.mp hM
          simp [innerConv, hA, hvs]
      | arr l =>
          have hsz : jsize (Json.arr l) = 1 + jsizeL l := by simp [jsize]
          have helems : ∀ x ∈ l, ((fun v => innerConv fuel R v) x).isSome := by
            intro x hx
            apply ih
            have := jsizeL_mem l x hx
            omega
          have hM := mapElemsM_isSome _ _ helems
          obtain ⟨l2, hl2⟩ := Option.isSome_iff_exists.mp hM
          simp [innerConv, hl2]
      | str s => simp [innerConv]
      | num n => simp [innerConv]
      | bool b => simp [innerConv]
      | null => simp [innerConv]

theorem convert_total (fields : List (String × Json)) (r : Nat)
    (hR : pyLen (rootAnyOf (setKey fields "openapi" (Json.str "3.0.2"))) = some r) :
    (convert_3_dot_1_to_3_dot_0 (Json.obj fields)).isSome := by
  unfold convert_3_dot_1_to_3_dot_0
  exact innerConv_total _ r hR _ _ (Nat.le_refl _)
